import Mathlib

/-!
Shallow embedding of the partitioned, sorted streaming merge-join engine of
`crates/via-tool/src/gaia/mod.rs` (repository jgraef/via-lactea), together
with theorems settling the frozen claims about its specification.

Modelling conventions:
* Machine integers (`u32` join keys of partitions, `u64` join keys of rows)
  are modelled as `Nat`; the only place Rust overflow semantics matter is
  `str::parse::<u32>`, which fails on values `≥ 2^32` and is modelled so.
* A CSV `Row Source` (gzip + CSV decoding) is an external collaborator; it is
  modelled as the list of rows it would yield, supplied by an `Env` mapping
  file paths to row lists.  I/O and decode errors are fatal and outside the
  claims considered here, so the error path of `Result` is not modelled.
* The Gaia row structs carry dozens of pass-through optional float fields
  never inspected by the engine; the model keeps the two `u64` fields the
  engine or its callers use for identity (`solution_id`, `source_id`, the
  latter being the join key) and drops the float payload.
* `Records::read_record` contains an unbounded `loop`; it is modelled by a
  single-iteration step function `loopStep` plus a fuel-indexed driver
  `read_record`, where `none` means the loop did not return within the given
  fuel.  The `unwrap` on `current_healpix_range` is modelled by an explicit
  `panicked` outcome instead of a default value, so panic-freedom is a
  provable statement rather than an artifact of the embedding.
-/

namespace Gaia

/-- Row of the primary `GaiaSource` table (`gaia/model/source.rs`): the join
key `source_id` and the other non-optional `u64` field; the many optional
pass-through payload fields are not modelled. -/
structure GaiaSource where
  solution_id : Nat
  source_id : Nat
deriving DecidableEq, Repr

/-- Row of the secondary `AstrophysicalParameters` table
(`gaia/model/astro.rs`): join key `source_id` plus `solution_id`; optional
pass-through payload fields are not modelled. -/
structure AstrophysicalParameters where
  solution_id : Nat
  source_id : Nat
deriving DecidableEq, Repr

/-- Inclusive bounds parsed from a partition file name (`HealPixRange` in
`gaia/mod.rs`, both fields `u32`). -/
structure HealPixRange where
  start : Nat
  «end» : Nat
deriving DecidableEq, Repr

/-- One partition of the catalog (`struct Partition` in `gaia/mod.rs`):
its range and the optional paths of its two table files. -/
structure Partition where
  healpix_range : HealPixRange
  gaia_source : Option String
  astrophysical_parameters : Option String
deriving DecidableEq, Repr

/-- Character class of the regex `\w` (word character) restricted to ASCII,
as used by `FILE_NAME_REGEX`. -/
def isWordChar (c : Char) : Bool :=
  c.isAlphanum || c = '_'

/-- Numeric value of a digit string. -/
def digitsVal (l : List Char) : Nat :=
  l.foldl (fun acc c => acc * 10 + (c.toNat - '0'.toNat)) 0

/-- Model of `str::parse::<u32>` on a capture that the regex guarantees to be
one or more ASCII digits: fails exactly when the value overflows `u32`. -/
def parseU32 (l : List Char) : Option Nat :=
  if l = [] then none
  else if digitsVal l < 2 ^ 32 then some (digitsVal l) else none

/-- Greedy `+`-repetition with backtracking: consume one or more characters
satisfying `p`, longest match first, and hand captured characters and the
rest of the input to the continuation `k`; the first continuation success
wins, as in the backtracking regex engine. -/
def greedyPlus {α : Type} (p : Char → Bool) (k : List Char → List Char → Option α)
    (l : List Char) : Option α :=
  let n := (l.takeWhile p).length
  (List.range n).findSome? (fun j => k (l.take (n - j)) (l.drop (n - j)))

/-- Tail of the pattern after the third capture group: `.csv.gz$`, where each
unescaped `.` matches an arbitrary character. -/
def tailOk (l : List Char) : Bool :=
  match l with
  | [_, 'c', 's', 'v', _, 'g', 'z'] => true
  | _ => false

/-- Continuation after the three capture groups have matched: the rest of
the input must match `.csv.gz$`; then, exactly as in the source, *both*
`start` and `end` are parsed from capture group 2 (`captures.get(2)`), and
capture group 3, though matched by the regex, is never parsed. -/
def matchLevel3 (g1 g2 _g3 rest4 : List Char) : Option (String × HealPixRange) :=
  if tailOk rest4 then
    match parseU32 g2, parseU32 g2 with
    | some start, some e => some (String.mk g1, ⟨start, e⟩)
    | _, _ => none
  else none

/-- Continuation after capture group 2: the literal `-`, then the third
group `(\d+)`. -/
def matchLevel2 (g1 g2 rest2 : List Char) : Option (String × HealPixRange) :=
  match rest2 with
  | '-' :: rest3 => greedyPlus Char.isDigit (matchLevel3 g1 g2) rest3
  | _ => none

/-- Continuation after capture group 1: the literal `_`, then the second
group `(\d+)`. -/
def matchLevel1 (g1 rest : List Char) : Option (String × HealPixRange) :=
  match rest with
  | '_' :: rest1 => greedyPlus Char.isDigit (matchLevel2 g1) rest1
  | _ => none

/-- Model of the inner `parse_file_name` of `Data::open`: match the file name
against `^(\w+)_(\d+)-(\d+).csv.gz$` and build the table-name prefix and the
`HealPixRange`. -/
def parse_file_name (file_name : String) : Option (String × HealPixRange) :=
  greedyPlus isWordChar matchLevel1 file_name.data

/-- Catalog of partitions (`struct Data`); the `BTreeMap<u32, Partition>` is
modelled as an association list kept sorted by strictly ascending key. -/
structure Data where
  partitions : List (Nat × Partition)
deriving DecidableEq, Repr

/-- Lookup in the association-list model of the `BTreeMap`. -/
def mapLookup (m : List (Nat × Partition)) (k : Nat) : Option Partition :=
  (m.find? (fun e => e.1 = k)).map (·.2)

/-- Key-ordered insert-or-replace in the association-list model of the
`BTreeMap`; keeps keys strictly ascending. -/
def mapInsert (m : List (Nat × Partition)) (k : Nat) (p : Partition) :
    List (Nat × Partition) :=
  match m with
  | [] => [(k, p)]
  | (k', p') :: rest =>
    if k < k' then (k, p) :: (k', p') :: rest
    else if k = k' then (k, p) :: rest
    else (k', p') :: mapInsert rest k p

/-- Effect of one directory entry on the partition map, as in the body of the
`while let` loop of `Data::open`: parse the file name (skipping it entirely
if it does not match), fetch or insert the partition for `healpix_range.start`
(`entry(..).or_insert_with(..)` runs *before* the prefix is inspected), then
set the path field selected by the prefix, leaving the partition untouched
for an unrecognized prefix. -/
def processFile (m : List (Nat × Partition)) (file_name : String) :
    List (Nat × Partition) :=
  match parse_file_name file_name with
  | none => m
  | some (pfx, healpix_range) =>
    let partition :=
      (mapLookup m healpix_range.start).getD
        ⟨healpix_range, none, none⟩
    let partition :=
      if pfx = "GaiaSource" then
        { partition with gaia_source := some file_name }
      else if pfx = "AstrophysicalParameters" then
        { partition with astrophysical_parameters := some file_name }
      else partition
    mapInsert m healpix_range.start partition

/-- Model of `Data::open`: fold the directory listing (the sequence of file
names produced by `read_dir`; non-UTF-8 names are skipped by the source
before parsing and are therefore not represented) into the partition map.
The file's path is identified with its file name. -/
def Data.open (file_names : List String) : Data :=
  ⟨file_names.foldl processFile []⟩

/-- Environment supplying the rows a CSV `Row Source` would yield for a path
(the external collaborator behind `open_reader`: `File::open`, gzip,
`csv_async` deserialization). -/
structure Env where
  gaia_rows : String → List GaiaSource
  astro_rows : String → List AstrophysicalParameters

/-- Open readers of the engine (`struct Readers`); an open reader is
modelled by the list of rows it has not yet yielded. -/
structure Readers where
  gaia_source : Option (List GaiaSource)
  astrophysical_parameters : Option (List AstrophysicalParameters)
deriving DecidableEq, Repr

/-- One-row lookahead buffers of the engine (`struct Buffers`). -/
structure Buffers where
  gaia_source : Option GaiaSource
  astrophysical_parameters : Option AstrophysicalParameters
deriving DecidableEq, Repr

/-- Joined output record (`struct Record`). -/
structure Record where
  healpix_range : HealPixRange
  gaia_source : GaiaSource
  astrophysical_parameters : Option AstrophysicalParameters
deriving DecidableEq, Repr

/-- Engine state (`struct Records<'a>`): the not-yet-visited tail of the
partition iterator, the total partition count, the range of the most recently
opened partition, and the reader/buffer pairs. -/
structure Records where
  partitions_iter : List (Nat × Partition)
  num_partitions : Nat
  current_healpix_range : Option HealPixRange
  readers : Readers
  buffers : Buffers
deriving DecidableEq, Repr

/-- Model of `Records::new`: iterator over all partitions, empty readers and
buffers, no current range. -/
def Records.new (data : Data) : Records :=
  { partitions_iter := data.partitions
    num_partitions := data.partitions.length
    current_healpix_range := none
    readers := ⟨none, none⟩
    buffers := ⟨none, none⟩ }

/-- Model of the inner helper `read_record` of `Records::read_record`: pull
one row from an optional reader, closing the reader (setting it to `none`)
when it is exhausted.  Returns the new reader state and the row read. -/
def readNext {α : Type} (reader_opt : Option (List α)) :
    Option (List α) × Option α :=
  match reader_opt with
  | none => (none, none)
  | some [] => (none, none)
  | some (record :: rest) => (some rest, some record)

/-- Outcome of one iteration of the `loop` in `Records::read_record`. -/
inductive LoopResult where
  /-- the iteration executed `return Ok(Some(record))` -/
  | yield (r : Record)
  /-- the iteration executed `return Ok(None)` (partition iterator
  exhausted) -/
  | eos
  /-- the iteration fell through to the next loop iteration; `warned` holds
  the `source_id` reported by `tracing::warn!` if the iteration emitted the
  "missing GaiaSource" warning -/
  | again (warned : Option Nat)
  /-- the iteration reached `self.current_healpix_range.unwrap()` with the
  field still `None` -/
  | panicked
deriving DecidableEq, Repr

/-- Decision step on the buffers: the six-armed `match &mut self.buffers`
of `Records::read_record`, arms in source order (the two refill arms carry
`if` guards on the readers and take precedence). -/
def Records.bufferStep (s : Records) : Records × LoopResult :=
  if s.buffers.gaia_source = none ∧ s.readers.gaia_source ≠ none then
    -- read GaiaSource
    let (reader, record) := readNext s.readers.gaia_source
    ({ s with readers := { s.readers with gaia_source := reader }
              buffers := { s.buffers with gaia_source := record } },
     .again none)
  else if s.buffers.astrophysical_parameters = none ∧
      s.readers.astrophysical_parameters ≠ none then
    -- read astrophysical_parameters
    let (reader, record) := readNext s.readers.astrophysical_parameters
    ({ s with readers := { s.readers with astrophysical_parameters := reader }
              buffers := { s.buffers with astrophysical_parameters := record } },
     .again none)
  else
    match s.buffers.gaia_source, s.buffers.astrophysical_parameters with
    | some gaia_source, some astrophysical_parameters =>
      match compare gaia_source.source_id astrophysical_parameters.source_id with
      | .eq =>
        match s.current_healpix_range with
        | some healpix_range =>
          ({ s with buffers := ⟨none, none⟩ },
           .yield ⟨healpix_range, gaia_source,
             s.buffers.astrophysical_parameters⟩)
        | none => (s, .panicked)
      | .lt =>
        match s.current_healpix_range with
        | some healpix_range =>
          ({ s with buffers := { s.buffers with gaia_source := none } },
           .yield ⟨healpix_range, gaia_source, none⟩)
        | none => (s, .panicked)
      | .gt =>
        -- there should be an entry in GaiaSource for every record we find:
        -- the source only warns here; the buffer is not cleared
        (s, .again (some astrophysical_parameters.source_id))
    | none, some astrophysical_parameters =>
      -- warning only; again the buffer is not cleared
      (s, .again (some astrophysical_parameters.source_id))
    | some gaia_source, none =>
      match s.current_healpix_range with
      | some healpix_range =>
        ({ s with buffers := ⟨none, none⟩ },
         .yield ⟨healpix_range, gaia_source,
           s.buffers.astrophysical_parameters⟩)
      | none => (s, .panicked)
    | none, none =>
      -- fetch next records
      (s, .again none)

/-- One iteration of the `loop` in `Records::read_record`: if neither reader
is open, either advance the partition iterator (recording the new range and
opening a reader for each present path) or return end-of-stream; then run
the buffer `match`. -/
def Records.loopStep (env : Env) (s : Records) : Records × LoopResult :=
  if s.readers.gaia_source = none ∧ s.readers.astrophysical_parameters = none then
    match s.partitions_iter with
    | [] => (s, .eos)
    | (_, partition) :: rest =>
      let s := { s with
        partitions_iter := rest
        current_healpix_range := some partition.healpix_range
        readers :=
          ⟨partition.gaia_source.map env.gaia_rows,
           partition.astrophysical_parameters.map env.astro_rows⟩ }
      s.bufferStep
  else
    s.bufferStep

/-- Outcome of a full `Records::read_record` call. -/
inductive ReadOut where
  /-- `Ok(Some(record))` -/
  | record (r : Record)
  /-- `Ok(None)` -/
  | eos
  /-- the call panicked on an `unwrap` -/
  | panicked
deriving DecidableEq, Repr

/-- Fuel-indexed model of `Records::read_record`: iterate `loopStep` until it
returns; `none` means the loop performed `fuel` iterations without
returning (in particular, a diverging call is `none` for every fuel). -/
def Records.read_record (env : Env) : Nat → Records → Option (Records × ReadOut)
  | 0, _ => none
  | fuel + 1, s =>
    match s.loopStep env with
    | (s', .yield r) => some (s', .record r)
    | (s', .eos) => some (s', .eos)
    | (s', .panicked) => some (s', .panicked)
    | (s', .again _) => Records.read_record env fuel s'

/-- Model of `Records::skip_file`: reset the readers to their default
(`None`, `None`); note that the buffers are left untouched. -/
def Records.skip_file (s : Records) : Records :=
  { s with readers := ⟨none, none⟩ }

/-- Model of `Records::progress`. -/
def Records.progress (s : Records) : Nat × Nat :=
  (s.num_partitions - s.partitions_iter.length, s.num_partitions)

/-- Drive the engine with `read_record` until end-of-stream, collecting the
yielded records; fuel counts loop iterations across all calls.  `none` means
the stream did not reach end-of-stream within the fuel (divergence or fuel
exhaustion) or a call panicked. -/
def Records.runFuel (env : Env) : Nat → Records → Option (List Record)
  | 0, _ => none
  | fuel + 1, s =>
    match s.loopStep env with
    | (s', .yield r) => (Records.runFuel env fuel s').map (r :: ·)
    | (_, .eos) => some []
    | (_, .panicked) => none
    | (s', .again _) => Records.runFuel env fuel s'

/-- States reachable from `s` by completed `read_record` calls (with any
fuel and any outcome) and `skip_file` calls: the states at which the public
surface of the engine can be observed. -/
inductive Reach (env : Env) : Records → Records → Prop where
  | refl (s : Records) : Reach env s s
  | read (s s₁ s₂ : Records) (fuel : Nat) (out : ReadOut) :
      Reach env s s₁ → s₁.read_record env fuel = some (s₂, out) →
      Reach env s s₂
  | skip (s s₁ : Records) : Reach env s s₁ → Reach env s s₁.skip_file

/-- Ordering key of a yielded record: partition order is the order of the
`start` of the partition ranges, followed by the join key. -/
def recKey (r : Record) : Nat × Nat :=
  (r.healpix_range.start, r.gaia_source.source_id)

/-- Lexicographic order on `(partition order, join key)` pairs. -/
def pairLE (a b : Nat × Nat) : Prop :=
  a.1 < b.1 ∨ (a.1 = b.1 ∧ a.2 ≤ b.2)

instance : DecidableRel pairLE := fun _ _ => by
  unfold pairLE
  infer_instance

/-- Lexicographic order `(partition order, join key)` on yielded records. -/
def recLE (r₁ r₂ : Record) : Prop :=
  pairLE (recKey r₁) (recKey r₂)

instance : DecidableRel recLE := fun _ _ => by
  unfold recLE
  infer_instance

/-- Hypothesis of the ordering claims: every row source yields its rows in
non-decreasing join-key order. -/
def EnvSorted (env : Env) : Prop :=
  (∀ path, List.Pairwise (fun a b => a.source_id ≤ b.source_id)
    (env.gaia_rows path)) ∧
  (∀ path, List.Pairwise (fun a b => a.source_id ≤ b.source_id)
    (env.astro_rows path))

/-- Primary-side rows the engine still holds for the current partition: the
buffered row (if any) followed by the rows the open reader has not yielded. -/
def gaiaPending (s : Records) : List GaiaSource :=
  s.buffers.gaia_source.toList ++ (s.readers.gaia_source.getD [])

/-- Representation invariant of the association-list model of the
`BTreeMap`: keys strictly ascending. -/
def MapSorted (m : List (Nat × Partition)) : Prop :=
  List.Pairwise (fun a b => a.1 < b.1) m

instance : DecidablePred MapSorted := fun m => by
  unfold MapSorted
  infer_instance

/-- Invariant carried by the ordering proof: the remaining partitions have
strictly ascending keys that equal their range starts and lie strictly above
the current range start, and the primary rows still pending for the current
partition are sorted; moreover a closed primary reader means an empty
primary buffer (true in every skip-free run). -/
def StateSorted (s : Records) : Prop :=
  List.Pairwise (fun a b => a.1 < b.1) s.partitions_iter ∧
  (∀ kp ∈ s.partitions_iter, kp.2.healpix_range.start = kp.1) ∧
  (∀ hr, s.current_healpix_range = some hr →
    ∀ kp ∈ s.partitions_iter, hr.start < kp.1) ∧
  List.Pairwise (fun a b => a.source_id ≤ b.source_id) (gaiaPending s) ∧
  (s.readers.gaia_source = none → s.buffers.gaia_source = none)

/-- Lower bound on every record a run can still yield: either no bound, or a
pair that is beaten by the current partition (strictly, or equally with the
bound's key below every pending primary key) and strictly by every future
partition. -/
def LbBound (b : Option (Nat × Nat)) (s : Records) : Prop :=
  ∀ p, b = some p →
    (∀ hr, s.current_healpix_range = some hr →
      p.1 < hr.start ∨
        (p.1 = hr.start ∧ ∀ g ∈ gaiaPending s, p.2 ≤ g.source_id)) ∧
    (∀ kp ∈ s.partitions_iter, p.1 < kp.1)

/-- Invariant justifying the `unwrap` on `current_healpix_range`: the field
is `none` only in the pristine state where readers and buffers are empty. -/
def CurInv (s : Records) : Prop :=
  s.current_healpix_range = none →
    s.readers = ⟨none, none⟩ ∧ s.buffers = ⟨none, none⟩

/-- State in the middle of processing one partition: the range is the one of
that partition, the iterator already points past it, and on each side a
closed reader forces an empty buffer (so the partition, once drained, is
left with clean buffers). -/
def InPart (hr : HealPixRange) (rest : List (Nat × Partition)) (n : Nat)
    (s : Records) : Prop :=
  s.current_healpix_range = some hr ∧
  s.partitions_iter = rest ∧
  s.num_partitions = n ∧
  (s.readers.gaia_source = none → s.buffers.gaia_source = none) ∧
  (s.readers.astrophysical_parameters = none →
    s.buffers.astrophysical_parameters = none)

/-- Clean state between two partitions: no readers, no buffers. -/
def boundary (rest : List (Nat × Partition)) (n : Nat)
    (cur : Option HealPixRange) : Records :=
  ⟨rest, n, cur, ⟨none, none⟩, ⟨none, none⟩⟩

/-- What a completed run guarantees for the block of records produced while
one partition was current: every record carries that partition's range, and
a partition holding only a primary file contributes exactly its primary rows
in order, joined with `none`. -/
def BlockSpec (env : Env) (kp : Nat × Partition) (blk : List Record) : Prop :=
  (∀ r ∈ blk, r.healpix_range = kp.2.healpix_range) ∧
  (∀ path, kp.2.gaia_source = some path →
    kp.2.astrophysical_parameters = none →
    blk = (env.gaia_rows path).map
      (fun g => ⟨kp.2.healpix_range, g, none⟩))

/-- Directory listing of the well-behaved witness scenario: two partitions,
the first with both tables, the second with only a primary file. -/
def filesA : List String :=
  ["GaiaSource_0-1.csv.gz", "AstrophysicalParameters_0-1.csv.gz",
   "GaiaSource_2-3.csv.gz"]

/-- Row sources of the well-behaved witness scenario. -/
def envA : Env :=
  { gaia_rows := fun p =>
      if p = "GaiaSource_0-1.csv.gz" then [⟨1, 1⟩, ⟨1, 2⟩]
      else if p = "GaiaSource_2-3.csv.gz" then [⟨1, 10⟩]
      else []
    astro_rows := fun p =>
      if p = "AstrophysicalParameters_0-1.csv.gz" then [⟨1, 2⟩]
      else [] }

/-- Directory listing of the `skip_file` failing input: partition 0 has both
tables, partition 1 only a primary file. -/
def c1Files : List String :=
  ["GaiaSource_0-1.csv.gz", "AstrophysicalParameters_0-1.csv.gz",
   "GaiaSource_1-2.csv.gz"]

/-- Row sources of the `skip_file` failing input: partition 0 has primary
key 1 and secondary key 5, partition 1 has primary key 5. -/
def c1Env : Env :=
  { gaia_rows := fun p =>
      if p = "GaiaSource_0-1.csv.gz" then [⟨1, 1⟩]
      else if p = "GaiaSource_1-2.csv.gz" then [⟨2, 5⟩]
      else []
    astro_rows := fun p =>
      if p = "AstrophysicalParameters_0-1.csv.gz" then [⟨3, 5⟩]
      else [] }

/-- Secondary row of partition 0 of the `skip_file` failing input; it is
still buffered when `skip_file` is called. -/
def c1LeakedRow : AstrophysicalParameters := ⟨3, 5⟩

/-- Engine state after the first `read_record` call on the `skip_file`
failing input: partition 0 is current, its secondary row is buffered. -/
def c1AfterFirst : Records :=
  { partitions_iter :=
      [(1, ⟨⟨1, 1⟩, some "GaiaSource_1-2.csv.gz", none⟩)]
    num_partitions := 2
    current_healpix_range := some ⟨0, 0⟩
    readers := ⟨some [], some []⟩
    buffers := ⟨none, some c1LeakedRow⟩ }

/-- Engine state after `skip_file` and the second `read_record` call on the
`skip_file` failing input. -/
def c1Final : Records :=
  { partitions_iter := []
    num_partitions := 2
    current_healpix_range := some ⟨1, 1⟩
    readers := ⟨some [], none⟩
    buffers := ⟨none, none⟩ }

/-- Engine state after the first `read_record` call on the well-behaved
witness scenario `filesA`/`envA`. -/
def c9S1 : Records :=
  { partitions_iter :=
      [(2, ⟨⟨2, 2⟩, some "GaiaSource_2-3.csv.gz", none⟩)]
    num_partitions := 2
    current_healpix_range := some ⟨0, 0⟩
    readers := ⟨some [⟨1, 2⟩], some []⟩
    buffers := ⟨none, some ⟨1, 2⟩⟩ }

/-- Fused end-of-stream state: the partition iterator is exhausted, both
readers are closed, but a buffered secondary row survives (left over from a
`skip_file` on the last partition); the stream must stay ended without ever
yielding it. -/
def c10Fused : Records :=
  { partitions_iter := []
    num_partitions := 1
    current_healpix_range := some ⟨0, 0⟩
    readers := ⟨none, none⟩
    buffers := ⟨none, some ⟨3, 5⟩⟩ }

/-- Directory listing of the orphan-row failing input: one partition with
both tables. -/
def c2Files : List String :=
  ["GaiaSource_0-0.csv.gz", "AstrophysicalParameters_0-0.csv.gz"]

/-- Row sources of the orphan-row failing input: the secondary key 1 has no
matching primary row (primary holds only key 2). -/
def c2Env : Env :=
  { gaia_rows := fun _ => [⟨1, 2⟩]
    astro_rows := fun _ => [⟨1, 1⟩] }

/-- State the orphan-row failing input reaches after three loop iterations,
with both buffers filled and primary key 2 above secondary key 1; the
`Ordering::Greater` arm maps it to itself forever. -/
def c2Stuck : Records :=
  { partitions_iter := []
    num_partitions := 1
    current_healpix_range := some ⟨0, 0⟩
    readers := ⟨some [], some []⟩
    buffers := ⟨some ⟨1, 2⟩, some ⟨1, 1⟩⟩ }

/-- Directory listing of the secondary-only failing input: a single
partition holding only a secondary file. -/
def c3Files : List String := ["AstrophysicalParameters_0-0.csv.gz"]

/-- Row sources of the secondary-only failing input: one secondary row. -/
def c3Env : Env :=
  { gaia_rows := fun _ => []
    astro_rows := fun _ => [⟨1, 7⟩] }

/-- State the secondary-only failing input reaches after two loop
iterations: the secondary row is buffered, no primary reader exists; the
orphan arm maps it to itself forever. -/
def c3Stuck : Records :=
  { partitions_iter := []
    num_partitions := 1
    current_healpix_range := some ⟨0, 0⟩
    readers := ⟨none, some []⟩
    buffers := ⟨none, some ⟨1, 7⟩⟩ }

/-- Inversion for `greedyPlus`: a successful match comes from some split of
the input into a captured part and a rest accepted by the continuation. -/
theorem greedyPlus_eq_some {α : Type} {p : Char → Bool}
    {k : List Char → List Char → Option α} {l : List Char} {b : α}
    (h : greedyPlus p k l = some b) :
    ∃ g r, k g r = some b := by
  unfold greedyPlus at h
  obtain ⟨j, -, hj⟩ := List.exists_of_findSome?_eq_some h
  exact ⟨_, _, hj⟩

/-! Lemmas about the association-list model of the partition `BTreeMap`. -/

theorem mapLookup_cons (hd : Nat × Partition) (tl : List (Nat × Partition))
    (k : Nat) :
    mapLookup (hd :: tl) k = if hd.1 = k then some hd.2 else mapLookup tl k := by
  by_cases h : hd.1 = k
  · simp [mapLookup, List.find?_cons_of_pos, h]
  · simp [mapLookup, List.find?_cons_of_neg, h]

theorem mem_of_mapLookup {m : List (Nat × Partition)} {k : Nat} {p : Partition}
    (h : mapLookup m k = some p) : (k, p) ∈ m := by
  unfold mapLookup at h
  cases hf : m.find? (fun e => e.1 = k) with
  | none => rw [hf] at h; cases h
  | some e =>
    rw [hf] at h
    have he : e ∈ m := List.mem_of_find?_eq_some hf
    have hk : e.1 = k := by simpa using List.find?_some hf
    have hp : e.2 = p := by simpa using h
    have : (k, p) = e := by
      cases e
      simp_all
    rwa [this]

theorem mem_mapInsert {m : List (Nat × Partition)} {k : Nat} {p : Partition}
    {kp : Nat × Partition} (h : kp ∈ mapInsert m k p) :
    kp = (k, p) ∨ kp ∈ m := by
  induction m with
  | nil => simpa [mapInsert] using h
  | cons hd tl ih =>
    unfold mapInsert at h
    split_ifs at h with h1 h2
    · rcases List.mem_cons.mp h with h' | h'
      · exact Or.inl h'
      · exact Or.inr (by simpa using h')
    · rcases List.mem_cons.mp h with h' | h'
      · exact Or.inl h'
      · exact Or.inr (List.mem_cons_of_mem _ h')
    · rcases List.mem_cons.mp h with h' | h'
      · exact Or.inr (by simp [h'])
      · rcases ih h' with h'' | h''
        · exact Or.inl h''
        · exact Or.inr (List.mem_cons_of_mem _ h'')

theorem mapSorted_mapInsert {m : List (Nat × Partition)} (k : Nat)
    (p : Partition) (h : MapSorted m) : MapSorted (mapInsert m k p) := by
  induction m with
  | nil => simp [mapInsert, MapSorted]
  | cons hd tl ih =>
    rw [MapSorted, List.pairwise_cons] at h
    obtain ⟨hhd, htl⟩ := h
    unfold mapInsert
    split_ifs with h1 h2
    · rw [MapSorted, List.pairwise_cons]
      refine ⟨?_, List.Pairwise.cons hhd htl⟩
      intro kp hkp
      rcases List.mem_cons.mp hkp with h | h
      · subst h
        simpa using h1
      · exact lt_trans h1 (hhd _ h)
    · rw [MapSorted, List.pairwise_cons]
      exact ⟨fun kp hkp => h2 ▸ hhd _ hkp, htl⟩
    · rw [MapSorted, List.pairwise_cons]
      refine ⟨?_, ih htl⟩
      intro kp hkp
      rcases mem_mapInsert hkp with h | h
      · subst h
        simp only
        omega
      · exact hhd _ h

theorem mapLookup_mapInsert_self (m : List (Nat × Partition)) (k : Nat)
    (p : Partition) : mapLookup (mapInsert m k p) k = some p := by
  induction m with
  | nil => simp [mapInsert, mapLookup_cons, mapLookup]
  | cons hd tl ih =>
    unfold mapInsert
    split_ifs with h1 h2
    · simp [mapLookup_cons]
    · simp [mapLookup_cons]
    · rw [mapLookup_cons]
      have : hd.1 ≠ k := by omega
      simp [this, ih]

theorem length_mapInsert_of_mem {m : List (Nat × Partition)} {k : Nat}
    (p : Partition) (hs : MapSorted m) (hk : mapLookup m k ≠ none) :
    (mapInsert m k p).length = m.length := by
  induction m with
  | nil => simp [mapLookup] at hk
  | cons hd tl ih =>
    rw [MapSorted, List.pairwise_cons] at hs
    obtain ⟨hhd, htl⟩ := hs
    unfold mapInsert
    split_ifs with h1 h2
    · exfalso
      rw [mapLookup_cons] at hk
      have hne : hd.1 ≠ k := by omega
      rw [if_neg hne] at hk
      obtain ⟨q, hq⟩ := Option.ne_none_iff_exists'.mp hk
      have := hhd _ (mem_of_mapLookup hq)
      omega
    · simp
    · rw [mapLookup_cons] at hk
      have hne : hd.1 ≠ k := by omega
      rw [if_neg hne] at hk
      simpa using ih htl hk

/-! Well-formedness of the catalog produced by `Data.open`. -/

theorem processFile_wf {m : List (Nat × Partition)} (f : String)
    (h1 : MapSorted m) (h2 : ∀ kp ∈ m, kp.2.healpix_range.start = kp.1) :
    MapSorted (processFile m f) ∧
      ∀ kp ∈ processFile m f, kp.2.healpix_range.start = kp.1 := by
  unfold processFile
  cases hp : parse_file_name f with
  | none => exact ⟨h1, h2⟩
  | some v =>
    obtain ⟨pfx, hr⟩ := v
    simp only
    have key : ∀ P : Partition, P.healpix_range.start = hr.start →
        MapSorted (mapInsert m hr.start P) ∧
          ∀ kp ∈ mapInsert m hr.start P, kp.2.healpix_range.start = kp.1 := by
      intro P hP
      refine ⟨mapSorted_mapInsert _ _ h1, ?_⟩
      intro kp hkp
      rcases mem_mapInsert hkp with h | h
      · subst h
        exact hP
      · exact h2 _ h
    have hbase :
        ((mapLookup m hr.start).getD ⟨hr, none, none⟩).healpix_range.start =
          hr.start := by
      cases hl : mapLookup m hr.start with
      | none => rfl
      | some q => simpa using h2 _ (mem_of_mapLookup hl)
    apply key
    split_ifs <;> exact hbase

theorem foldl_processFile_wf (files : List String) :
    ∀ m, MapSorted m → (∀ kp ∈ m, kp.2.healpix_range.start = kp.1) →
      MapSorted (files.foldl processFile m) ∧
        ∀ kp ∈ files.foldl processFile m, kp.2.healpix_range.start = kp.1 := by
  induction files with
  | nil => intro m h1 h2; exact ⟨h1, h2⟩
  | cons f fs ih =>
    intro m h1 h2
    rw [List.foldl_cons]
    obtain ⟨h1', h2'⟩ := processFile_wf f h1 h2
    exact ih _ h1' h2'

theorem data_open_wf (files : List String) :
    MapSorted (Data.open files).partitions ∧
      ∀ kp ∈ (Data.open files).partitions,
        kp.2.healpix_range.start = kp.1 := by
  exact foldl_processFile_wf files [] (by simp [MapSorted]) (by simp)

/-! Claims C6 and C8: the partition catalog layer. -/

/-- C6, counterexample: a directory containing only the file
`Foo_5-7.csv.gz`, whose table-name prefix `Foo` is neither of the two
recognized identifiers, does NOT produce an empty partition collection:
`Data::open` inserts an empty partition keyed 5 for it (the
`entry(..).or_insert_with(..)` runs before the prefix is checked), so the
file does contribute to the resulting partition collection. -/
theorem c6_counterexample_unrecognized_creates_partition :
    (Data.open ["Foo_5-7.csv.gz"]).partitions =
      [(5, ⟨⟨5, 5⟩, none, none⟩)] ∧
    Data.open ["Foo_5-7.csv.gz"] ≠ Data.open [] := by
  exact ⟨by decide, by decide⟩

/-- C6, amended: `Data::open` produces partitions keyed by the start of
their range, ordered strictly ascending by that key (hence at most one
partition per start value); a later file with the same start merges its path
into the existing partition rather than creating a duplicate (the map does
not grow, and the stored partition is the existing one with the matching
path field overwritten); a filename whose table-name prefix is neither of
the two recognized identifiers contributes no file path, but — contrary to
the original claim — it still inserts an empty partition keyed by its start
when none exists, leaving an existing partition unchanged. -/
theorem c6_partition_map_amended :
    (∀ files : List String,
      MapSorted (Data.open files).partitions ∧
        ∀ kp ∈ (Data.open files).partitions,
          kp.2.healpix_range.start = kp.1) ∧
    (∀ (m : List (Nat × Partition)) (f pfx : String) (hr : HealPixRange),
      MapSorted m → parse_file_name f = some (pfx, hr) →
      mapLookup m hr.start ≠ none →
      (processFile m f).length = m.length) ∧
    (∀ (m : List (Nat × Partition)) (f pfx : String) (hr : HealPixRange),
      parse_file_name f = some (pfx, hr) → pfx = "GaiaSource" →
      mapLookup (processFile m f) hr.start =
        some { (mapLookup m hr.start).getD ⟨hr, none, none⟩ with
                 gaia_source := some f }) ∧
    (∀ (m : List (Nat × Partition)) (f pfx : String) (hr : HealPixRange),
      parse_file_name f = some (pfx, hr) →
      pfx = "AstrophysicalParameters" →
      mapLookup (processFile m f) hr.start =
        some { (mapLookup m hr.start).getD ⟨hr, none, none⟩ with
                 astrophysical_parameters := some f }) ∧
    (∀ (m : List (Nat × Partition)) (f pfx : String) (hr : HealPixRange),
      parse_file_name f = some (pfx, hr) → pfx ≠ "GaiaSource" →
      pfx ≠ "AstrophysicalParameters" →
      mapLookup (processFile m f) hr.start =
        some ((mapLookup m hr.start).getD ⟨hr, none, none⟩)) := by
  refine ⟨data_open_wf, ?_, ?_, ?_, ?_⟩
  · intro m f pfx hr hs hp hk
    unfold processFile
    rw [hp]
    exact length_mapInsert_of_mem _ hs hk
  · intro m f pfx hr hp hpfx
    unfold processFile
    rw [hp]
    simp only [hpfx, if_pos rfl]
    exact mapLookup_mapInsert_self _ _ _
  · intro m f pfx hr hp hpfx
    unfold processFile
    rw [hp]
    have hne : pfx ≠ "GaiaSource" := by
      rw [hpfx]
      decide
    simp only [hpfx, if_neg hne, if_pos rfl]
    exact mapLookup_mapInsert_self _ _ _
  · intro m f pfx hr hp h1 h2
    unfold processFile
    rw [hp]
    simp only [if_neg h1, if_neg h2]
    exact mapLookup_mapInsert_self _ _ _

/-- Witness for C6: instantiating the merge clause on a one-entry map shows
that a second file with start 5 does not grow the map, and instantiating the
unrecognized-prefix clause on the empty map shows the empty partition it
creates. -/
theorem c6_witness :
    (processFile [(5, ⟨⟨5, 5⟩, none, none⟩)] "GaiaSource_5-9.csv.gz").length =
      [(5, (⟨⟨5, 5⟩, none, none⟩ : Partition))].length ∧
    mapLookup (processFile [] "Foo_5-7.csv.gz") 5 =
      some ⟨⟨5, 5⟩, none, none⟩ :=
  ⟨c6_partition_map_amended.2.1 _ "GaiaSource_5-9.csv.gz" "GaiaSource" ⟨5, 5⟩
      (by decide) (by decide) (by decide),
   c6_partition_map_amended.2.2.2.2 [] "Foo_5-7.csv.gz" "Foo" ⟨5, 5⟩
      (by decide) (by decide) (by decide)⟩

/-- C8: for every filename accepted by `parse_file_name`, the resulting
`HealPixRange` has `end` equal to `start`, because both are parsed from
capture group 2; in particular on `GaiaSource_3-7.csv.gz` the parsed range
is `⟨3, 3⟩` — the second numeric group `7` never reaches the range. -/
theorem c8_end_equals_start :
    (∀ (s pfx : String) (hr : HealPixRange),
      parse_file_name s = some (pfx, hr) → hr.«end» = hr.start) ∧
    parse_file_name "GaiaSource_3-7.csv.gz" =
      some ("GaiaSource", ⟨3, 3⟩) := by
  refine ⟨?_, by decide⟩
  intro s pfx hr h
  unfold parse_file_name at h
  obtain ⟨g1, rest, h1⟩ := greedyPlus_eq_some h
  unfold matchLevel1 at h1
  split at h1
  · obtain ⟨g2, rest2, h2⟩ := greedyPlus_eq_some h1
    unfold matchLevel2 at h2
    split at h2
    · obtain ⟨g3, rest4, h3⟩ := greedyPlus_eq_some h2
      unfold matchLevel3 at h3
      split at h3
      · cases hv : parseU32 g2 with
        | none =>
          rw [hv] at h3
          cases h3
        | some v =>
          rw [hv] at h3
          simp only [Option.some.injEq, Prod.mk.injEq] at h3
          obtain ⟨-, h3⟩ := h3
          rw [← h3]
      · cases h3
    · cases h2
  · cases h1

/-- Witness for C8: applying the universally quantified part at the concrete
accepted filename `Foo_5-7.csv.gz`, whose parse result is `⟨5, 5⟩`. -/
theorem c8_witness :
    (HealPixRange.mk 5 5).«end» = (HealPixRange.mk 5 5).start :=
  c8_end_equals_start.1 "Foo_5-7.csv.gz" "Foo" ⟨5, 5⟩ (by decide)

/-! Claims C1, C2, C3: behaviors refuted by direct evaluation. -/

/-- C1, failing input: on a catalog with partition 0 (primary key 1,
secondary key 5) and partition 1 (primary key 5), the first `read_record`
yields `(range 0, key 1, none)` and leaves the secondary key-5 row buffered;
`skip_file` resets only the readers, so the buffered row survives, and the
next `read_record` emits it inside the joined record of partition 1 — data
of the skipped partition is emitted after `skip_file`, contradicting the
claim that both buffered rows are discarded. -/
theorem c1_skip_file_leaves_buffers :
    (Records.new (Data.open c1Files)).read_record c1Env 10 =
      some (c1AfterFirst, .record ⟨⟨0, 0⟩, ⟨1, 1⟩, none⟩) ∧
    c1AfterFirst.skip_file.buffers.astrophysical_parameters =
      some c1LeakedRow ∧
    c1AfterFirst.skip_file.read_record c1Env 10 =
      some (c1Final, .record ⟨⟨1, 1⟩, ⟨2, 5⟩, some c1LeakedRow⟩) ∧
    c1LeakedRow ∈ c1Env.astro_rows "AstrophysicalParameters_0-1.csv.gz" := by
  refine ⟨by decide, rfl, by decide, by decide⟩

/-- C2, failing input: with both buffers occupied and primary key 2 greater
than secondary key 1, `read_record` never returns for any fuel — the
`Ordering::Greater` arm only warns and does not discard the secondary
buffer, so the loop re-enters the same state (warning about key 1) forever
instead of discarding, warning once, and continuing. -/
theorem c2_orphan_secondary_diverges :
    (∀ fuel, (Records.new (Data.open c2Files)).read_record c2Env fuel =
      none) ∧
    c2Stuck.loopStep c2Env = (c2Stuck, .again (some 1)) := by
  have hstep : c2Stuck.loopStep c2Env = (c2Stuck, .again (some 1)) := by
    decide
  have hstuck : ∀ fuel, c2Stuck.read_record c2Env fuel = none := by
    intro fuel
    induction fuel with
    | zero => rfl
    | succ n ih =>
      rw [Records.read_record]
      simp only [hstep]
      exact ih
  refine ⟨fun fuel => ?_, hstep⟩
  match fuel with
  | 0 => rfl
  | 1 => rfl
  | 2 => rfl
  | n + 3 =>
    have h : Records.read_record c2Env (n + 3)
        (Records.new (Data.open c2Files)) =
        Records.read_record c2Env n c2Stuck := rfl
    exact h.trans (hstuck n)

/-- C3, failing input: a partition holding only a secondary file with one
row makes `read_record` diverge — after buffering the orphan secondary row
the engine warns about it (key 7) on every iteration without discarding it,
so the call never reaches a yield or `Ok(None)`, refuting the claim that
every call terminates and that a secondary-only partition yields zero
records with the stream still ending. -/
theorem c3_secondary_only_partition_diverges :
    (∀ fuel, (Records.new (Data.open c3Files)).read_record c3Env fuel =
      none) ∧
    c3Stuck.loopStep c3Env = (c3Stuck, .again (some 7)) := by
  have hstep : c3Stuck.loopStep c3Env = (c3Stuck, .again (some 7)) := by
    decide
  have hstuck : ∀ fuel, c3Stuck.read_record c3Env fuel = none := by
    intro fuel
    induction fuel with
    | zero => rfl
    | succ n ih =>
      rw [Records.read_record]
      simp only [hstep]
      exact ih
  refine ⟨fun fuel => ?_, hstep⟩
  match fuel with
  | 0 => rfl
  | n + 1 =>
    have h : Records.read_record c3Env (n + 1)
        (Records.new (Data.open c3Files)) =
        Records.read_record c3Env n c3Stuck := rfl
    exact h.trans (hstuck n)

/-! Step lemmas for the buffer `match` of `read_record`. -/

theorem bufferStep_frame (s : Records) :
    s.bufferStep.1.partitions_iter = s.partitions_iter ∧
    s.bufferStep.1.num_partitions = s.num_partitions ∧
    s.bufferStep.1.current_healpix_range = s.current_healpix_range := by
  unfold Records.bufferStep
  split_ifs
  · exact ⟨rfl, rfl, rfl⟩
  · exact ⟨rfl, rfl, rfl⟩
  · split
    · split
      · split
        · exact ⟨rfl, rfl, rfl⟩
        · exact ⟨rfl, rfl, rfl⟩
      · split
        · exact ⟨rfl, rfl, rfl⟩
        · exact ⟨rfl, rfl, rfl⟩
      · exact ⟨rfl, rfl, rfl⟩
    · exact ⟨rfl, rfl, rfl⟩
    · split
      · exact ⟨rfl, rfl, rfl⟩
      · exact ⟨rfl, rfl, rfl⟩
    · exact ⟨rfl, rfl, rfl⟩

theorem bufferStep_no_eos (s : Records) : s.bufferStep.2 ≠ .eos := by
  obtain ⟨iter, n, cur, ⟨rg, ra⟩, ⟨bg, ba⟩⟩ := s
  rcases bg with _ | g
  · rcases rg with _ | gl
    · rcases ba with _ | a
      · rcases ra with _ | al <;> simp [Records.bufferStep]
      · simp [Records.bufferStep]
    · simp [Records.bufferStep]
  · rcases ba with _ | a
    · rcases ra with _ | al
      · rcases cur with _ | hr <;> simp [Records.bufferStep]
      · simp [Records.bufferStep]
    · cases hc : compare g.source_id a.source_id with
      | gt => simp [Records.bufferStep, hc]
      | eq => rcases cur with _ | hr <;> simp [Records.bufferStep, hc]
      | lt => rcases cur with _ | hr <;> simp [Records.bufferStep, hc]

theorem bufferStep_yield {s : Records} {r : Record}
    (h : s.bufferStep.2 = .yield r) :
    s.current_healpix_range = some r.healpix_range ∧
    gaiaPending s = r.gaia_source :: gaiaPending s.bufferStep.1 := by
  obtain ⟨iter, n, cur, ⟨rg, ra⟩, ⟨bg, ba⟩⟩ := s
  rcases bg with _ | g
  · rcases rg with _ | gl
    · rcases ba with _ | a
      · rcases ra with _ | al <;> simp [Records.bufferStep] at h
      · simp [Records.bufferStep] at h
    · simp [Records.bufferStep] at h
  · rcases ba with _ | a
    · rcases ra with _ | al
      · rcases cur with _ | hr
        · simp [Records.bufferStep] at h
        · simp only [Records.bufferStep] at h ⊢
          simp at h
          subst h
          simp [gaiaPending]
      · simp [Records.bufferStep] at h
    · cases hc : compare g.source_id a.source_id with
      | gt => simp [Records.bufferStep, hc] at h
      | eq =>
        rcases cur with _ | hr
        · simp [Records.bufferStep, hc] at h
        · simp only [Records.bufferStep] at h ⊢
          simp [hc] at h
          subst h
          simp [hc, gaiaPending]
      | lt =>
        rcases cur with _ | hr
        · simp [Records.bufferStep, hc] at h
        · simp only [Records.bufferStep] at h ⊢
          simp [hc] at h
          subst h
          simp [hc, gaiaPending]

theorem bufferStep_again {s : Records} {w : Option Nat}
    (h : s.bufferStep.2 = .again w) :
    gaiaPending s.bufferStep.1 = gaiaPending s := by
  obtain ⟨iter, n, cur, ⟨rg, ra⟩, ⟨bg, ba⟩⟩ := s
  rcases bg with _ | g
  · rcases rg with _ | gl
    · rcases ba with _ | a
      · rcases ra with _ | al <;>
          simp [Records.bufferStep, gaiaPending, readNext]
      · simp [Records.bufferStep, gaiaPending, readNext]
    · rcases gl with _ | ⟨g0, gl⟩ <;>
        simp [Records.bufferStep, gaiaPending, readNext]
  · rcases ba with _ | a
    · rcases ra with _ | al
      · rcases cur with _ | hr <;> simp [Records.bufferStep] at h ⊢
      · rcases al with _ | ⟨a0, al⟩ <;>
          simp [Records.bufferStep, gaiaPending, readNext]
    · cases hc : compare g.source_id a.source_id with
      | gt => simp [Records.bufferStep, hc, gaiaPending]
      | eq => rcases cur with _ | hr <;> simp [Records.bufferStep, hc] at h ⊢
      | lt => rcases cur with _ | hr <;> simp [Records.bufferStep, hc] at h ⊢

theorem bufferStep_panicked {s : Records}
    (h : s.bufferStep.2 = .panicked) :
    s.current_healpix_range = none ∧ s.buffers.gaia_source ≠ none := by
  obtain ⟨iter, n, cur, ⟨rg, ra⟩, ⟨bg, ba⟩⟩ := s
  rcases bg with _ | g
  · rcases rg with _ | gl
    · rcases ba with _ | a
      · rcases ra with _ | al <;> simp [Records.bufferStep] at h
      · simp [Records.bufferStep] at h
    · simp [Records.bufferStep] at h
  · rcases ba with _ | a
    · rcases ra with _ | al
      · rcases cur with _ | hr <;> simp [Records.bufferStep] at h ⊢
      · simp [Records.bufferStep] at h
    · cases hc : compare g.source_id a.source_id with
      | gt => simp [Records.bufferStep, hc] at h
      | eq => rcases cur with _ | hr <;> simp [Records.bufferStep, hc] at h ⊢
      | lt => rcases cur with _ | hr <;> simp [Records.bufferStep, hc] at h ⊢

theorem bufferStep_gaia_inv {s : Records}
    (h : s.readers.gaia_source = none → s.buffers.gaia_source = none) :
    s.bufferStep.1.readers.gaia_source = none →
      s.bufferStep.1.buffers.gaia_source = none := by
  obtain ⟨iter, n, cur, ⟨rg, ra⟩, ⟨bg, ba⟩⟩ := s
  rcases bg with _ | g
  · rcases rg with _ | gl
    · rcases ba with _ | a
      · rcases ra with _ | al <;> simp [Records.bufferStep, readNext]
      · simp [Records.bufferStep, readNext]
    · rcases gl with _ | ⟨g0, gl⟩ <;> simp [Records.bufferStep, readNext]
  · rcases ba with _ | a
    · rcases ra with _ | al
      · rcases cur with _ | hr <;> simp [Records.bufferStep, readNext] <;>
          simp_all
      · rcases al with _ | ⟨a0, al⟩ <;>
          simp [Records.bufferStep, readNext] <;> simp_all
    · cases hc : compare g.source_id a.source_id with
      | gt => simpa [Records.bufferStep, hc] using h
      | eq =>
        rcases cur with _ | hr <;> simp [Records.bufferStep, hc, readNext] <;>
          simp_all
      | lt =>
        rcases cur with _ | hr <;> simp [Records.bufferStep, hc, readNext] <;>
          simp_all

theorem bufferStep_astro_inv {s : Records}
    (h : s.readers.astrophysical_parameters = none →
      s.buffers.astrophysical_parameters = none) :
    s.bufferStep.1.readers.astrophysical_parameters = none →
      s.bufferStep.1.buffers.astrophysical_parameters = none := by
  obtain ⟨iter, n, cur, ⟨rg, ra⟩, ⟨bg, ba⟩⟩ := s
  rcases bg with _ | g
  · rcases rg with _ | gl
    · rcases ba with _ | a
      · rcases ra with _ | al
        · simp [Records.bufferStep]
        · rcases al with _ | ⟨a0, al⟩ <;>
            simp [Records.bufferStep, readNext]
      · simpa [Records.bufferStep] using h
    · rcases gl with _ | ⟨g0, gl⟩ <;> simp [Records.bufferStep, readNext] <;>
        simp_all
  · rcases ba with _ | a
    · rcases ra with _ | al
      · rcases cur with _ | hr <;> simp [Records.bufferStep, readNext]
      · rcases al with _ | ⟨a0, al⟩ <;>
          simp [Records.bufferStep, readNext]
    · cases hc : compare g.source_id a.source_id with
      | gt => simpa [Records.bufferStep, hc] using h
      | eq =>
        rcases cur with _ | hr <;> simp [Records.bufferStep, hc, readNext] <;>
          simp_all
      | lt =>
        rcases cur with _ | hr <;> simp [Records.bufferStep, hc, readNext] <;>
          simp_all

/-! Step lemmas for one iteration of the `read_record` loop. -/

theorem loopStep_noAdvance {env : Env} {s : Records}
    (h : ¬(s.readers.gaia_source = none ∧
      s.readers.astrophysical_parameters = none)) :
    s.loopStep env = s.bufferStep := by
  unfold Records.loopStep
  rw [if_neg h]

theorem loopStep_advance {env : Env} {s : Records} {k : Nat} {p : Partition}
    {rest : List (Nat × Partition)}
    (h1 : s.readers.gaia_source = none)
    (h2 : s.readers.astrophysical_parameters = none)
    (h3 : s.partitions_iter = (k, p) :: rest) :
    s.loopStep env = Records.bufferStep
      { s with
          partitions_iter := rest
          current_healpix_range := some p.healpix_range
          readers :=
            ⟨p.gaia_source.map env.gaia_rows,
             p.astrophysical_parameters.map env.astro_rows⟩ } := by
  unfold Records.loopStep
  rw [if_pos ⟨h1, h2⟩, h3]

theorem loopStep_eos_of (env : Env) {s : Records}
    (h1 : s.partitions_iter = [])
    (h2 : s.readers.gaia_source = none)
    (h3 : s.readers.astrophysical_parameters = none) :
    s.loopStep env = (s, .eos) := by
  unfold Records.loopStep
  rw [if_pos ⟨h2, h3⟩, h1]

theorem loopStep_eos {env : Env} {s s' : Records}
    (h : s.loopStep env = (s', .eos)) :
    s' = s ∧ s.partitions_iter = [] ∧ s.readers.gaia_source = none ∧
      s.readers.astrophysical_parameters = none := by
  unfold Records.loopStep at h
  split_ifs at h with hc
  · cases hiter : s.partitions_iter with
    | nil =>
      rw [hiter] at h
      simp only [Prod.mk.injEq] at h
      exact ⟨h.1.symm, rfl, hc.1, hc.2⟩
    | cons kp rest =>
      rcases kp with ⟨k, p⟩
      rw [hiter] at h
      exact absurd (congrArg Prod.snd h) (bufferStep_no_eos _)
  · exact absurd (by rw [h]) (bufferStep_no_eos s)

theorem loopStep_iter (env : Env) (s : Records) :
    (s.loopStep env).1.partitions_iter <:+ s.partitions_iter ∧
    (s.loopStep env).1.num_partitions = s.num_partitions := by
  by_cases hc : s.readers.gaia_source = none ∧
      s.readers.astrophysical_parameters = none
  · cases hiter : s.partitions_iter with
    | nil =>
      rw [loopStep_eos_of env hiter hc.1 hc.2, hiter]
      exact ⟨List.suffix_refl _, rfl⟩
    | cons kp rest =>
      rcases kp with ⟨k, p⟩
      rw [loopStep_advance hc.1 hc.2 hiter]
      obtain ⟨hi, hn, -⟩ := bufferStep_frame
        { s with
            partitions_iter := rest
            current_healpix_range := some p.healpix_range
            readers :=
              ⟨p.gaia_source.map env.gaia_rows,
               p.astrophysical_parameters.map env.astro_rows⟩ }
      rw [hi, hn]
      exact ⟨List.suffix_cons _ _, rfl⟩
  · rw [loopStep_noAdvance hc]
    obtain ⟨hi, hn, -⟩ := bufferStep_frame s
    rw [hi, hn]
    exact ⟨List.suffix_refl _, rfl⟩

/-! Lemmas about a whole `read_record` call. -/

theorem read_record_frame {env : Env} {fuel : Nat} {s s' : Records}
    {out : ReadOut} (h : s.read_record env fuel = some (s', out)) :
    s'.partitions_iter <:+ s.partitions_iter ∧
    s'.num_partitions = s.num_partitions := by
  induction fuel generalizing s with
  | zero => cases h
  | succ n ih =>
    rw [Records.read_record] at h
    rcases hstep : s.loopStep env with ⟨s₁, res⟩
    rw [hstep] at h
    have hls := loopStep_iter env s
    rw [hstep] at hls
    cases res with
    | yield r =>
      simp only [Option.some.injEq, Prod.mk.injEq] at h
      rw [← h.1]
      exact hls
    | eos =>
      simp only [Option.some.injEq, Prod.mk.injEq] at h
      rw [← h.1]
      exact hls
    | panicked =>
      simp only [Option.some.injEq, Prod.mk.injEq] at h
      rw [← h.1]
      exact hls
    | again w =>
      obtain ⟨h1, h2⟩ := ih h
      exact ⟨h1.trans hls.1, h2.trans hls.2⟩

theorem read_record_eos {env : Env} {fuel : Nat} {s s' : Records}
    (h : s.read_record env fuel = some (s', .eos)) :
    s'.partitions_iter = [] ∧ s'.readers.gaia_source = none ∧
      s'.readers.astrophysical_parameters = none := by
  induction fuel generalizing s with
  | zero => cases h
  | succ n ih =>
    rw [Records.read_record] at h
    rcases hstep : s.loopStep env with ⟨s₁, res⟩
    rw [hstep] at h
    cases res with
    | yield r => simp at h
    | eos =>
      simp only [Option.some.injEq, Prod.mk.injEq] at h
      obtain ⟨heq, hs, hg, ha⟩ := loopStep_eos hstep
      rw [← h.1, heq]
      exact ⟨hs, hg, ha⟩
    | panicked => simp at h
    | again w => exact ih h

/-- C10: once `read_record` has returned `Ok(None)` the stream is fused:
every later `read_record` call (with any positive fuel, i.e. immediately in
its first loop iteration) returns `Ok(None)` again from the same state, even
if buffered rows remain in the engine; such leftovers are never yielded. -/
theorem c10_eos_fused :
    ∀ (env : Env) (fuel : Nat) (s s' : Records),
      s.read_record env fuel = some (s', .eos) →
      ∀ fuel', 0 < fuel' → s'.read_record env fuel' = some (s', .eos) := by
  intro env fuel s s' h fuel' hf
  obtain ⟨h1, h2, h3⟩ := read_record_eos h
  have hstep := loopStep_eos_of env h1 h2 h3
  match fuel', hf with
  | f + 1, _ => rw [Records.read_record, hstep]

/-- Witness for C10: a fused end-of-stream state that still holds a
buffered secondary row (as after `skip_file` on the last partition) keeps
returning `Ok(None)`. -/
theorem c10_witness :
    c10Fused.read_record c1Env 1 = some (c10Fused, .eos) :=
  c10_eos_fused c1Env 2 c10Fused c10Fused (by decide) 1 (by decide)

/-! Invariant justifying the `unwrap` sites (claim C9). -/

theorem loopStep_curInv (env : Env) {s : Records} (h : CurInv s) :
    CurInv (s.loopStep env).1 ∧ (s.loopStep env).2 ≠ .panicked ∧
    (∀ r, (s.loopStep env).2 = .yield r →
      (s.loopStep env).1.current_healpix_range = some r.healpix_range) := by
  by_cases hc : s.readers.gaia_source = none ∧
      s.readers.astrophysical_parameters = none
  · cases hiter : s.partitions_iter with
    | nil =>
      rw [loopStep_eos_of env hiter hc.1 hc.2]
      refine ⟨h, by simp, ?_⟩
      intro r hr
      cases hr
    | cons kp rest =>
      rcases kp with ⟨k, p⟩
      rw [loopStep_advance hc.1 hc.2 hiter]
      obtain ⟨-, -, hcur⟩ := bufferStep_frame
        { s with
            partitions_iter := rest
            current_healpix_range := some p.healpix_range
            readers :=
              ⟨p.gaia_source.map env.gaia_rows,
               p.astrophysical_parameters.map env.astro_rows⟩ }
      refine ⟨?_, ?_, ?_⟩
      · intro hnone
        rw [hcur] at hnone
        cases hnone
      · intro hpan
        obtain ⟨hno, -⟩ := bufferStep_panicked hpan
        cases hno
      · intro r hr
        obtain ⟨hsome, -⟩ := bufferStep_yield hr
        rw [hcur]
        exact hsome
  · rw [loopStep_noAdvance hc]
    by_cases hcur0 : s.current_healpix_range = none
    · obtain ⟨hrd, -⟩ := h hcur0
      exact absurd ⟨by rw [hrd], by rw [hrd]⟩ hc
    · obtain ⟨-, -, hcur⟩ := bufferStep_frame s
      refine ⟨?_, ?_, ?_⟩
      · intro hnone
        rw [hcur] at hnone
        exact absurd hnone hcur0
      · intro hpan
        exact absurd (bufferStep_panicked hpan).1 hcur0
      · intro r hr
        rw [hcur]
        exact (bufferStep_yield hr).1

theorem read_record_curInv {env : Env} {fuel : Nat} {s s' : Records}
    {out : ReadOut} (hinv : CurInv s)
    (h : s.read_record env fuel = some (s', out)) :
    CurInv s' ∧ out ≠ .panicked ∧
    (∀ r, out = .record r →
      s'.current_healpix_range = some r.healpix_range) := by
  induction fuel generalizing s with
  | zero => cases h
  | succ n ih =>
    rw [Records.read_record] at h
    rcases hstep : s.loopStep env with ⟨s₁, res⟩
    have hci := loopStep_curInv env hinv
    rw [hstep] at h hci
    cases res with
    | yield r =>
      simp only [Option.some.injEq, Prod.mk.injEq] at h
      obtain ⟨hs, hout⟩ := h
      subst hs
      rw [← hout]
      refine ⟨hci.1, by simp, ?_⟩
      intro r' hr'
      simp only [ReadOut.record.injEq] at hr'
      rw [← hr']
      exact hci.2.2 r rfl
    | eos =>
      simp only [Option.some.injEq, Prod.mk.injEq] at h
      obtain ⟨hs, hout⟩ := h
      subst hs
      rw [← hout]
      refine ⟨hci.1, by simp, ?_⟩
      intro r' hr'
      cases hr'
    | panicked => exact absurd rfl hci.2.1
    | again w => exact ih hci.1 h

theorem skip_file_curInv {s : Records} (h : CurInv s) :
    CurInv s.skip_file := by
  intro hnone
  obtain ⟨-, hbuf⟩ := h hnone
  exact ⟨rfl, hbuf⟩

theorem reach_curInv {env : Env} {s0 s : Records} (h0 : CurInv s0)
    (h : Reach env s0 s) : CurInv s := by
  induction h with
  | refl => exact h0
  | read _ _ _ _ _ hrr ih => exact (read_record_curInv ih hrr).1
  | skip _ _ ih => exact skip_file_curInv ih

/-- C9: from every state reachable from a freshly opened catalog (by any
interleaving of `read_record` and `skip_file`), `read_record` never reaches
its `unwrap` sites with `None` (never panics), and every yielded record
carries the range of the most recently opened partition
(`current_healpix_range`). -/
theorem c9_no_panic :
    ∀ (files : List String) (env : Env) (s : Records),
      Reach env (Records.new (Data.open files)) s →
      ∀ (fuel : Nat) (s' : Records) (out : ReadOut),
        s.read_record env fuel = some (s', out) →
        out ≠ .panicked ∧
        ∀ r, out = .record r →
          s'.current_healpix_range = some r.healpix_range := by
  intro files env s hreach fuel s' out h
  have h0 : CurInv (Records.new (Data.open files)) := fun _ => ⟨rfl, rfl⟩
  have hinv := reach_curInv h0 hreach
  obtain ⟨-, h2, h3⟩ := read_record_curInv hinv h
  exact ⟨h2, h3⟩

/-- Witness for C9: the first `read_record` call on the two-partition
witness catalog yields a record (not a panic) carrying the range of the
partition just opened. -/
theorem c9_witness :
    ReadOut.record ⟨⟨0, 0⟩, ⟨1, 1⟩, none⟩ ≠ ReadOut.panicked ∧
    ∀ r, ReadOut.record ⟨⟨0, 0⟩, ⟨1, 1⟩, none⟩ = ReadOut.record r →
      c9S1.current_healpix_range = some r.healpix_range :=
  c9_no_panic filesA envA (Records.new (Data.open filesA)) (.refl _) 3 c9S1
    (.record ⟨⟨0, 0⟩, ⟨1, 1⟩, none⟩) (by decide)

/-! Frame facts along the public surface (claim C5). -/

theorem reach_frame {env : Env} {s0 s : Records} (h : Reach env s0 s) :
    s.partitions_iter <:+ s0.partitions_iter ∧
    s.num_partitions = s0.num_partitions := by
  induction h with
  | refl => exact ⟨List.suffix_refl _, rfl⟩
  | read _ _ _ _ _ hrr ih =>
    obtain ⟨h1, h2⟩ := read_record_frame hrr
    exact ⟨h1.trans ih.1, h2.trans ih.2⟩
  | skip _ _ ih => exact ih

/-- C5: along any interleaving of `read_record` and `skip_file` calls from a
freshly opened catalog, `progress()` returns `(completed, total)` with
`completed ≤ total`, `total` fixed at the partition count established at
open time, `completed` equal to the number of partitions whose cursor has
been passed (the consumed prefix of the partition list), `skip_file` leaving
progress unchanged, `completed` monotonically non-decreasing across
`read_record` calls, and progress `(total, total)` at end-of-stream. -/
theorem c5_progress_invariants :
    ∀ (files : List String) (env : Env) (s : Records),
      Reach env (Records.new (Data.open files)) s →
      s.progress.1 ≤ s.progress.2 ∧
      s.progress.2 = (Data.open files).partitions.length ∧
      (∃ passed, passed ++ s.partitions_iter = (Data.open files).partitions ∧
        s.progress.1 = passed.length) ∧
      s.skip_file.progress = s.progress ∧
      (∀ (fuel : Nat) (s' : Records) (out : ReadOut),
        s.read_record env fuel = some (s', out) →
        s.progress.1 ≤ s'.progress.1) ∧
      (∀ (fuel : Nat) (s' : Records),
        s.read_record env fuel = some (s', .eos) →
        s'.progress = (s.progress.2, s.progress.2)) := by
  intro files env s hreach
  obtain ⟨hsuf, hnum⟩ := reach_frame hreach
  have hnum' : s.num_partitions = (Data.open files).partitions.length := hnum
  obtain ⟨passed, hp⟩ := hsuf
  have hlen : passed.length + s.partitions_iter.length =
      (Data.open files).partitions.length := by
    have := congrArg List.length hp
    simpa using this
  refine ⟨?_, ?_, ?_, rfl, ?_, ?_⟩
  · exact Nat.sub_le _ _
  · exact hnum'
  · refine ⟨passed, hp, ?_⟩
    simp only [Records.progress, hnum']
    omega
  · intro fuel s' out h
    obtain ⟨h1, h2⟩ := read_record_frame h
    have h3 := h1.length_le
    simp only [Records.progress, h2]
    omega
  · intro fuel s' h
    obtain ⟨hiter, -, -⟩ := read_record_eos h
    obtain ⟨-, h2⟩ := read_record_frame h
    simp only [Records.progress, hiter, h2, List.length_nil, Nat.sub_zero,
      Prod.mk.injEq]

/-- Witness for C5: the progress contract instantiated at the freshly
opened two-partition witness catalog. -/
theorem c5_witness :
    (Records.new (Data.open filesA)).progress.1 ≤
      (Records.new (Data.open filesA)).progress.2 ∧
    (Records.new (Data.open filesA)).progress.2 =
      (Data.open filesA).partitions.length ∧
    (∃ passed,
      passed ++ (Records.new (Data.open filesA)).partitions_iter =
        (Data.open filesA).partitions ∧
      (Records.new (Data.open filesA)).progress.1 = passed.length) ∧
    (Records.new (Data.open filesA)).skip_file.progress =
      (Records.new (Data.open filesA)).progress ∧
    (∀ (fuel : Nat) (s' : Records) (out : ReadOut),
      (Records.new (Data.open filesA)).read_record envA fuel =
        some (s', out) →
      (Records.new (Data.open filesA)).progress.1 ≤ s'.progress.1) ∧
    (∀ (fuel : Nat) (s' : Records),
      (Records.new (Data.open filesA)).read_record envA fuel =
        some (s', .eos) →
      s'.progress =
        ((Records.new (Data.open filesA)).progress.2,
         (Records.new (Data.open filesA)).progress.2)) :=
  c5_progress_invariants filesA envA (Records.new (Data.open filesA))
    (.refl _)

/-! Ordering of the yielded stream (claim C4). -/

theorem pairLE_trans {a b c : Nat × Nat} (h1 : pairLE a b)
    (h2 : pairLE b c) : pairLE a c := by
  unfold pairLE at *
  omega

theorem runFuel_sorted {env : Env} (he : EnvSorted env) :
    ∀ (fuel : Nat) (s : Records) (b : Option (Nat × Nat)) (l : List Record),
      StateSorted s → LbBound b s → s.runFuel env fuel = some l →
      List.Chain' recLE l ∧
      ∀ r ∈ l, ∀ q, b = some q → pairLE q (recKey r) := by
  intro fuel
  induction fuel with
  | zero =>
    intro s b l _ _ h
    cases h
  | succ n ih =>
    intro s b l hss hlb h
    rw [Records.runFuel] at h
    have key : ∀ s₂ : Records, StateSorted s₂ → LbBound b s₂ →
        (match s₂.bufferStep with
          | (s', .yield r) => (Records.runFuel env n s').map (r :: ·)
          | (_, .eos) => some []
          | (_, .panicked) => none
          | (s', .again _) => Records.runFuel env n s') = some l →
        List.Chain' recLE l ∧
        ∀ r ∈ l, ∀ q, b = some q → pairLE q (recKey r) := by
      intro s₂ hss₂ hlb₂ h₂
      obtain ⟨hpw₂, hkey₂, hcur₂, hpend₂, hinv₂⟩ := hss₂
      split at h₂
      · -- the iteration yielded a record
        rename_i s' r heq
        rw [Option.map_eq_some'] at h₂
        obtain ⟨l', hl', hcons⟩ := h₂
        have hyield : s₂.bufferStep.2 = .yield r := by rw [heq]
        have hfst : s₂.bufferStep.1 = s' := by rw [heq]
        obtain ⟨hcury, hpendy⟩ := bufferStep_yield hyield
        rw [hfst] at hpendy
        obtain ⟨hfr1, hfr2, hfr3⟩ := bufferStep_frame s₂
        rw [hfst] at hfr1 hfr2 hfr3
        have hginv := bufferStep_gaia_inv (s := s₂) hinv₂
        rw [hfst] at hginv
        have hss' : StateSorted s' := by
          refine ⟨?_, ?_, ?_, ?_, hginv⟩
          · rw [hfr1]; exact hpw₂
          · rw [hfr1]; exact hkey₂
          · rw [hfr3, hfr1]; exact hcur₂
          · have hp := hpend₂
            rw [hpendy] at hp
            exact (List.pairwise_cons.mp hp).2
        have hlb' : LbBound (some (recKey r)) s' := by
          intro q hq
          simp only [Option.some.injEq] at hq
          subst hq
          constructor
          · intro hr' hcur'
            rw [hfr3, hcury] at hcur'
            simp only [Option.some.injEq] at hcur'
            subst hcur'
            right
            refine ⟨rfl, ?_⟩
            intro g hg
            have hp := hpend₂
            rw [hpendy] at hp
            exact List.rel_of_pairwise_cons hp hg
          · intro kp hkp
            rw [hfr1] at hkp
            exact hcur₂ r.healpix_range hcury kp hkp
        have hbr : ∀ q, b = some q → pairLE q (recKey r) := by
          intro q hq
          obtain ⟨hq1, hq2⟩ := hlb₂ q hq
          simp only [pairLE, recKey]
          rcases hq1 r.healpix_range hcury with hlt | ⟨heq1, hall⟩
          · exact Or.inl hlt
          · right
            refine ⟨heq1, ?_⟩
            have hmem : r.gaia_source ∈ gaiaPending s₂ := by
              rw [hpendy]
              exact List.mem_cons_self _ _
            exact hall _ hmem
        obtain ⟨ihc, ihb⟩ := ih s' (some (recKey r)) l' hss' hlb' hl'
        rw [← hcons]
        constructor
        · rw [List.chain'_cons']
          refine ⟨?_, ihc⟩
          intro y hy
          exact ihb y (List.mem_of_mem_head? hy) (recKey r) rfl
        · intro r'' hr'' q hq
          rcases List.mem_cons.mp hr'' with h' | h'
          · rw [h']
            exact hbr q hq
          · exact pairLE_trans (hbr q hq) (ihb r'' h' (recKey r) rfl)
      · -- end-of-stream inside the buffer match is impossible
        rename_i x heq
        exact absurd (by rw [heq]) (bufferStep_no_eos s₂)
      · cases h₂
      · -- the iteration fell through to the next one
        rename_i s' w heq
        have hagain : s₂.bufferStep.2 = .again w := by rw [heq]
        have hfst : s₂.bufferStep.1 = s' := by rw [heq]
        have hpend' := bufferStep_again hagain
        rw [hfst] at hpend'
        obtain ⟨hfr1, hfr2, hfr3⟩ := bufferStep_frame s₂
        rw [hfst] at hfr1 hfr2 hfr3
        have hginv := bufferStep_gaia_inv (s := s₂) hinv₂
        rw [hfst] at hginv
        have hss' : StateSorted s' := by
          refine ⟨?_, ?_, ?_, ?_, hginv⟩
          · rw [hfr1]; exact hpw₂
          · rw [hfr1]; exact hkey₂
          · rw [hfr3, hfr1]; exact hcur₂
          · rw [hpend']; exact hpend₂
        have hlb' : LbBound b s' := by
          intro q hq
          obtain ⟨h1, h2⟩ := hlb₂ q hq
          constructor
          · intro hr' hcur'
            rw [hfr3] at hcur'
            rcases h1 hr' hcur' with hlt | ⟨heq1, hall⟩
            · exact Or.inl hlt
            · right
              refine ⟨heq1, ?_⟩
              intro g hg
              rw [hpend'] at hg
              exact hall g hg
          · intro kp hkp
            rw [hfr1] at hkp
            exact h2 kp hkp
        exact ih s' b l hss' hlb' h₂
    by_cases hc : s.readers.gaia_source = none ∧
        s.readers.astrophysical_parameters = none
    · cases hiter : s.partitions_iter with
      | nil =>
        rw [loopStep_eos_of env hiter hc.1 hc.2] at h
        simp only [Option.some.injEq] at h
        rw [← h]
        exact ⟨List.chain'_nil, by simp⟩
      | cons kp rest =>
        rcases kp with ⟨k, p⟩
        rw [loopStep_advance hc.1 hc.2 hiter] at h
        obtain ⟨hpw, hkey, hcur, hpend, hinv⟩ := hss
        have hbg : s.buffers.gaia_source = none := hinv hc.1
        rw [hiter] at hpw hkey
        have hk : p.healpix_range.start = k := by
          simpa using hkey (k, p) (List.mem_cons_self _ _)
        refine key _ ⟨?_, ?_, ?_, ?_, ?_⟩ ?_ h
        · exact (List.pairwise_cons.mp hpw).2
        · intro kp' hkp'
          exact hkey kp' (List.mem_cons_of_mem _ hkp')
        · intro hr' hcur'
          simp only [Option.some.injEq] at hcur'
          rw [← hcur']
          intro kp' hkp'
          rw [hk]
          exact List.rel_of_pairwise_cons hpw hkp'
        · cases hpg : p.gaia_source with
          | none => simp [gaiaPending, hbg, hpg]
          | some path =>
            simp only [gaiaPending, hbg, hpg]
            simpa using he.1 path
        · intro _
          exact hbg
        · intro q hq
          obtain ⟨h1, h2⟩ := hlb q hq
          rw [hiter] at h2
          constructor
          · intro hr' hcur'
            simp only [Option.some.injEq] at hcur'
            rw [← hcur']
            left
            rw [hk]
            exact h2 (k, p) (List.mem_cons_self _ _)
          · intro kp' hkp'
            exact h2 kp' (List.mem_cons_of_mem _ hkp')
    · rw [loopStep_noAdvance hc] at h
      exact key s hss hlb h

/-- C4: for every catalog and every environment whose row sources are
sorted ascending by join key within each partition, the sequence of records
yielded by a completed run of successive `read_record` calls is
non-decreasing in the lexicographic order (partition order, join key). -/
theorem c4_records_nondecreasing :
    ∀ (files : List String) (env : Env) (fuel : Nat) (l : List Record),
      EnvSorted env →
      (Records.new (Data.open files)).runFuel env fuel = some l →
      List.Chain' recLE l := by
  intro files env fuel l he h
  have hwf := data_open_wf files
  have hss : StateSorted (Records.new (Data.open files)) := by
    refine ⟨hwf.1, hwf.2, ?_, ?_, ?_⟩
    · intro hr hcur
      cases hcur
    · simp [gaiaPending, Records.new]
    · intro _
      rfl
  have hlb : LbBound none (Records.new (Data.open files)) := by
    intro q hq
    cases hq
  exact (runFuel_sorted he fuel _ none l hss hlb h).1

/-- Witness for C4: the completed run over the two-partition witness
catalog yields three records in non-decreasing (partition, key) order. -/
theorem c4_witness :
    List.Chain' recLE
      [⟨⟨0, 0⟩, ⟨1, 1⟩, none⟩, ⟨⟨0, 0⟩, ⟨1, 2⟩, some ⟨1, 2⟩⟩,
       ⟨⟨2, 2⟩, ⟨1, 10⟩, none⟩] :=
  c4_records_nondecreasing filesA envA 20 _
    (by
      refine ⟨fun path => ?_, fun path => ?_⟩ <;>
        (unfold envA; dsimp only; split_ifs <;> decide))
    (by decide)

/-! Per-partition decomposition of a completed run (claim C7). -/

theorem blockRun {env : Env} {hr : HealPixRange}
    {rest : List (Nat × Partition)} {nn : Nat} :
    ∀ (fuel : Nat) (s : Records) (l : List Record), InPart hr rest nn s →
      s.runFuel env fuel = some l →
      ∃ (l₁ l₂ : List Record) (fuel' : Nat), l = l₁ ++ l₂ ∧
        (∀ r ∈ l₁, r.healpix_range = hr) ∧ fuel' ≤ fuel ∧
        (¬(s.readers.gaia_source = none ∧
            s.readers.astrophysical_parameters = none) → fuel' < fuel) ∧
        (boundary rest nn (some hr)).runFuel env fuel' = some l₂ := by
  intro fuel
  induction fuel with
  | zero =>
    intro s l _ h
    cases h
  | succ n ih =>
    intro s l hip h
    obtain ⟨hcur, hiter, hnn, hgi, hai⟩ := hip
    by_cases hc : s.readers.gaia_source = none ∧
        s.readers.astrophysical_parameters = none
    · have hbg : s.buffers.gaia_source = none := hgi hc.1
      have hba : s.buffers.astrophysical_parameters = none := hai hc.2
      refine ⟨[], l, n + 1, by simp, by simp, le_refl _,
        fun hnb => absurd hc hnb, ?_⟩
      have hs : boundary rest nn (some hr) = s := by
        obtain ⟨i, m, c, ⟨rg, ra⟩, ⟨bg, ba⟩⟩ := s
        simp_all [boundary]
      rw [hs]
      exact h
    · rw [Records.runFuel, loopStep_noAdvance hc] at h
      split at h
      · rename_i s' r heq
        rw [Option.map_eq_some'] at h
        obtain ⟨l', hl', hcons⟩ := h
        have hyield : s.bufferStep.2 = .yield r := by rw [heq]
        have hfst : s.bufferStep.1 = s' := by rw [heq]
        have hrhr : r.healpix_range = hr := by
          have hc' := (bufferStep_yield hyield).1
          rw [hcur] at hc'
          simp only [Option.some.injEq] at hc'
          exact hc'.symm
        obtain ⟨f1, f2, f3⟩ := bufferStep_frame s
        rw [hfst] at f1 f2 f3
        have g1 := bufferStep_gaia_inv (s := s) hgi
        have g2 := bufferStep_astro_inv (s := s) hai
        rw [hfst] at g1 g2
        have hip' : InPart hr rest nn s' :=
          ⟨by rw [f3]; exact hcur, by rw [f1]; exact hiter,
           by rw [f2]; exact hnn, g1, g2⟩
        obtain ⟨l₁, l₂, fuel', hl, hall, hfl, -, hrun⟩ := ih s' l' hip' hl'
        refine ⟨r :: l₁, l₂, fuel', ?_, ?_, ?_, ?_, hrun⟩
        · rw [← hcons, hl]
          rfl
        · intro r' hm
          rcases List.mem_cons.mp hm with h' | h'
          · rw [h']
            exact hrhr
          · exact hall r' h'
        · exact hfl.trans (Nat.le_succ _)
        · intro _
          exact Nat.lt_succ_of_le hfl
      · rename_i x heq
        exact absurd (by rw [heq]) (bufferStep_no_eos s)
      · cases h
      · rename_i s' w heq
        have hfst : s.bufferStep.1 = s' := by rw [heq]
        obtain ⟨f1, f2, f3⟩ := bufferStep_frame s
        rw [hfst] at f1 f2 f3
        have g1 := bufferStep_gaia_inv (s := s) hgi
        have g2 := bufferStep_astro_inv (s := s) hai
        rw [hfst] at g1 g2
        have hip' : InPart hr rest nn s' :=
          ⟨by rw [f3]; exact hcur, by rw [f1]; exact hiter,
           by rw [f2]; exact hnn, g1, g2⟩
        obtain ⟨l₁, l₂, fuel', hl, hall, hfl, -, hrun⟩ := ih s' l hip' h
        exact ⟨l₁, l₂, fuel', hl, hall, hfl.trans (Nat.le_succ _),
          fun _ => Nat.lt_succ_of_le hfl, hrun⟩

theorem primBlockRun {env : Env} {hr : HealPixRange}
    {rest : List (Nat × Partition)} {nn : Nat} :
    ∀ (fuel : Nat) (rg : Option (List GaiaSource)) (bg : Option GaiaSource)
      (l : List Record),
      (rg = none → bg = none) →
      (Records.mk rest nn (some hr) ⟨rg, none⟩ ⟨bg, none⟩).runFuel env fuel =
        some l →
      ∃ (l₂ : List Record) (fuel' : Nat),
        l = (bg.toList ++ rg.getD []).map
          (fun g => (⟨hr, g, none⟩ : Record)) ++ l₂ ∧
        fuel' ≤ fuel ∧ (rg ≠ none → fuel' < fuel) ∧
        (boundary rest nn (some hr)).runFuel env fuel' = some l₂ := by
  intro fuel
  induction fuel with
  | zero =>
    intro rg bg l _ h
    cases h
  | succ n ih =>
    intro rg bg l hinv h
    rcases rg with _ | gl
    · have hbg : bg = none := hinv rfl
      subst hbg
      exact ⟨l, n + 1, by simp, le_refl _, fun hne => absurd rfl hne, h⟩
    · rw [Records.runFuel, loopStep_noAdvance (by simp)] at h
      rcases bg with _ | g
      · rcases gl with _ | ⟨g0, t⟩
        · simp only [Records.bufferStep, readNext] at h
          refine ⟨l, n, by simp, Nat.le_succ _,
            fun _ => Nat.lt_succ_of_le (le_refl _), ?_⟩
          exact h
        · simp only [Records.bufferStep, readNext] at h
          obtain ⟨l₂, fuel', hl, hfl, -, hrun⟩ :=
            ih (some t) (some g0) l (by intro hno; cases hno) h
          refine ⟨l₂, fuel', ?_, hfl.trans (Nat.le_succ _),
            fun _ => Nat.lt_succ_of_le hfl, hrun⟩
          simpa using hl
      · simp [Records.bufferStep, readNext] at h
        obtain ⟨l', hl', hcons⟩ := h
        obtain ⟨l₂, fuel', hl, hfl, -, hrun⟩ :=
          ih (some gl) none l' (by intro hno; cases hno) hl'
        refine ⟨l₂, fuel', ?_, hfl.trans (Nat.le_succ _),
          fun _ => Nat.lt_succ_of_le hfl, hrun⟩
        rw [← hcons, hl]
        simp

theorem mainRun {env : Env} :
    ∀ (fuel : Nat) (rest : List (Nat × Partition)) (nn : Nat)
      (cur : Option HealPixRange) (l : List Record),
      (boundary rest nn cur).runFuel env fuel = some l →
      ∃ blocks : List (List Record), l = blocks.flatten ∧
        List.Forall₂ (BlockSpec env) rest blocks := by
  intro fuel
  induction fuel using Nat.strong_induction_on with
  | _ fuel ih =>
    intro rest nn cur l h
    rcases fuel with _ | n
    · cases h
    · rw [Records.runFuel] at h
      rcases rest with _ | ⟨⟨k, p⟩, rest'⟩
      · rw [loopStep_eos_of env rfl rfl rfl] at h
        simp only [Option.some.injEq] at h
        exact ⟨[], by simp [← h], List.Forall₂.nil⟩
      · rw [loopStep_advance rfl rfl rfl] at h
        rcases hpa : p.astrophysical_parameters with _ | apath
        · rcases hpg : p.gaia_source with _ | path
          · -- partition with no files at all
            simp only [hpg, hpa, Option.map_none'] at h
            simp only [Records.bufferStep, readNext] at h
            obtain ⟨blocks', hj, hfa⟩ :=
              ih n (Nat.lt_succ_self _) rest' nn (some p.healpix_range) l h
            refine ⟨[] :: blocks', by simpa using hj,
              List.Forall₂.cons ⟨?_, ?_⟩ hfa⟩
            · intro r hm
              exact absurd hm (List.not_mem_nil r)
            · intro path' hpath' _
              rw [hpg] at hpath'
              cases hpath'
          · -- primary-only partition: exact block
            simp only [hpg, hpa, Option.map_none', Option.map_some'] at h
            have h' : (Records.mk rest' nn (some p.healpix_range)
                ⟨some (env.gaia_rows path), none⟩
                ⟨none, none⟩).runFuel env (n + 1) = some l := by
              rw [Records.runFuel, loopStep_noAdvance (by simp)]
              exact h
            obtain ⟨l₂, fuel', hl, -, hstrict, hrun⟩ :=
              primBlockRun (n + 1) (some (env.gaia_rows path)) none l
                (by intro hno; cases hno) h'
            have hlt : fuel' < n + 1 := hstrict (by simp)
            obtain ⟨blocks', hj, hfa⟩ :=
              ih fuel' hlt rest' nn (some p.healpix_range) l₂ hrun
            refine ⟨((env.gaia_rows path).map
                (fun g => ⟨p.healpix_range, g, none⟩)) :: blocks', ?_,
              List.Forall₂.cons ⟨?_, ?_⟩ hfa⟩
            · rw [hl, hj]
              simp
            · intro r hm
              simp only [List.mem_map] at hm
              obtain ⟨g, -, hg⟩ := hm
              rw [← hg]
            · intro path' hpath' _
              rw [hpg] at hpath'
              simp only [Option.some.injEq] at hpath'
              rw [hpath']
        · -- partition with a secondary file: generic block
          simp only [hpa, Option.map_some'] at h
          have h' : (Records.mk rest' nn (some p.healpix_range)
              ⟨p.gaia_source.map env.gaia_rows,
               some (env.astro_rows apath)⟩
              ⟨none, none⟩).runFuel env (n + 1) = some l := by
            rw [Records.runFuel, loopStep_noAdvance (by simp)]
            exact h
          have hip : InPart p.healpix_range rest' nn
              (Records.mk rest' nn (some p.healpix_range)
                ⟨p.gaia_source.map env.gaia_rows,
                 some (env.astro_rows apath)⟩
                ⟨none, none⟩) :=
            ⟨rfl, rfl, rfl, fun _ => rfl, fun _ => rfl⟩
          obtain ⟨l₁, l₂, fuel', hl, hall, -, hstrict, hrun⟩ :=
            blockRun (n + 1) _ l hip h'
          have hlt : fuel' < n + 1 := hstrict (by simp)
          obtain ⟨blocks', hj, hfa⟩ :=
            ih fuel' hlt rest' nn (some p.healpix_range) l₂ hrun
          refine ⟨l₁ :: blocks', by rw [hl, hj]; simp,
            List.Forall₂.cons ⟨hall, ?_⟩ hfa⟩
          intro path' hg' hpa'
          rw [hpa] at hpa'
          cases hpa'

theorem filterJoin_nil {env : Env} {k : Nat} :
    ∀ (ps : List (Nat × Partition)) (blocks : List (List Record)),
      List.Forall₂ (BlockSpec env) ps blocks →
      (∀ kp ∈ ps, kp.2.healpix_range.start = kp.1) →
      (∀ kp ∈ ps, kp.1 ≠ k) →
      blocks.flatten.filter (fun r => r.healpix_range.start = k) = [] := by
  intro ps blocks hfa
  induction hfa with
  | nil =>
    intro _ _
    rfl
  | @cons a b ps' blocks' hR htail ih =>
    intro hkey hne
    rw [List.flatten_cons, List.filter_append]
    have hf1 : b.filter (fun r => r.healpix_range.start = k) = [] := by
      rw [List.filter_eq_nil_iff]
      intro r hr
      have h1 := hR.1 r hr
      have h2 := hkey a (List.mem_cons_self _ _)
      have h3 := hne a (List.mem_cons_self _ _)
      simp [h1, h2, h3]
    rw [hf1]
    rw [ih (fun kp hkp => hkey kp (List.mem_cons_of_mem _ hkp))
      (fun kp hkp => hne kp (List.mem_cons_of_mem _ hkp))]
    rfl

theorem filterJoin_primary {env : Env} {k : Nat} {p : Partition}
    {path : String} (hpg : p.gaia_source = some path)
    (hpa : p.astrophysical_parameters = none) :
    ∀ (ps : List (Nat × Partition)) (blocks : List (List Record)),
      List.Forall₂ (BlockSpec env) ps blocks →
      List.Pairwise (fun a b => a.1 < b.1) ps →
      (∀ kp ∈ ps, kp.2.healpix_range.start = kp.1) →
      (k, p) ∈ ps →
      blocks.flatten.filter (fun r => r.healpix_range.start = k) =
        (env.gaia_rows path).map (fun g => ⟨p.healpix_range, g, none⟩) := by
  intro ps blocks hfa
  induction hfa with
  | nil =>
    intro _ _ hmem
    exact absurd hmem (List.not_mem_nil _)
  | @cons a b ps' blocks' hR htail ih =>
    intro hpw hkey hmem
    rw [List.flatten_cons, List.filter_append]
    rcases List.mem_cons.mp hmem with heq | hmem'
    · have ha : (k, p) = a := heq
      subst ha
      have hb : b = (env.gaia_rows path).map
          (fun g => ⟨p.healpix_range, g, none⟩) := hR.2 path hpg hpa
      have hk : p.healpix_range.start = k := by
        simpa using hkey (k, p) (List.mem_cons_self _ _)
      have hf1 : b.filter (fun r => r.healpix_range.start = k) = b := by
        rw [List.filter_eq_self]
        intro r hr
        rw [hb] at hr
        simp only [List.mem_map] at hr
        obtain ⟨g, -, hg⟩ := hr
        simp [← hg, hk]
      have hf2 : blocks'.flatten.filter
          (fun r => r.healpix_range.start = k) = [] := by
        refine filterJoin_nil ps' blocks' htail ?_ ?_
        · intro kp hkp
          exact hkey kp (List.mem_cons_of_mem _ hkp)
        · intro kp hkp
          have := List.rel_of_pairwise_cons hpw hkp
          omega
      rw [hf1, hf2, hb, List.append_nil]
    · have hne : a.1 ≠ k := by
        have := List.rel_of_pairwise_cons hpw hmem'
        omega
      have hf1 : b.filter (fun r => r.healpix_range.start = k) = [] := by
        rw [List.filter_eq_nil_iff]
        intro r hr
        have h1 := hR.1 r hr
        have h2 := hkey a (List.mem_cons_self _ _)
        simp [h1, h2, hne]
      rw [hf1]
      rw [ih (List.pairwise_cons.mp hpw).2
        (fun kp hkp => hkey kp (List.mem_cons_of_mem _ hkp)) hmem']
      rfl

/-- C7: in any completed run over a catalog, a partition holding a primary
file and no secondary file contributes exactly the rows of its primary
source, once each, in source order, each joined with
`astrophysical_parameters = None` and tagged with the partition's range
(whose start is the partition key). -/
theorem c7_primary_only_rows_exact :
    ∀ (files : List String) (env : Env) (fuel : Nat) (l : List Record)
      (k : Nat) (p : Partition) (path : String),
      (Records.new (Data.open files)).runFuel env fuel = some l →
      (k, p) ∈ (Data.open files).partitions →
      p.gaia_source = some path →
      p.astrophysical_parameters = none →
      l.filter (fun r => r.healpix_range.start = k) =
        (env.gaia_rows path).map (fun g => ⟨p.healpix_range, g, none⟩) := by
  intro files env fuel l k p path h hmem hpg hpa
  obtain ⟨hpw, hkey⟩ := data_open_wf files
  obtain ⟨blocks, hjoin, hfa⟩ :=
    mainRun fuel (Data.open files).partitions
      (Data.open files).partitions.length none l h
  subst hjoin
  exact filterJoin_primary hpg hpa _ blocks hfa hpw hkey hmem

/-- Witness for C7: in the completed run over the two-partition witness
catalog, the records of the primary-only partition (key 2) are exactly its
one primary row, with no secondary. -/
theorem c7_witness :
    List.filter (fun r => r.healpix_range.start = 2)
      ([⟨⟨0, 0⟩, ⟨1, 1⟩, none⟩, ⟨⟨0, 0⟩, ⟨1, 2⟩, some ⟨1, 2⟩⟩,
        ⟨⟨2, 2⟩, ⟨1, 10⟩, none⟩] : List Record) =
      (envA.gaia_rows "GaiaSource_2-3.csv.gz").map
        (fun g => ⟨⟨2, 2⟩, g, none⟩) :=
  c7_primary_only_rows_exact filesA envA 20
    [⟨⟨0, 0⟩, ⟨1, 1⟩, none⟩, ⟨⟨0, 0⟩, ⟨1, 2⟩, some ⟨1, 2⟩⟩,
     ⟨⟨2, 2⟩, ⟨1, 10⟩, none⟩] 2
    ⟨⟨2, 2⟩, some "GaiaSource_2-3.csv.gz", none⟩ "GaiaSource_2-3.csv.gz"
    (by decide) (by decide) rfl rfl

end Gaia